import Mathlib

/-!
Shallow embedding of `src/plugins/GSdx/boost_spsc_queue.hpp`: the stripped
boost single-producer/single-consumer lock-free ring buffer used by GSdx.

The C++ class `ringbuffer_base<T, max_size>` owns `max_size` raw slots of
storage, a producer-owned `write_index_`, a consumer-owned `read_index_`,
and a consumer-private `pending_pop_read_index`.  We model the raw storage
as a list of `Option` slots: `some v` means a constructed payload `v` lives
in the slot, `none` means the slot is raw (unconstructed) memory.  Every
explicit payload-destructor invocation of the C++ code (`buffer[i].~T()`)
is counted in the `dtor_calls` field, so that object-lifetime claims can be
stated exactly.  The atomic loads and stores of the C++ code are modelled
as plain reads and writes of the state: the theorems below are about the
sequential behaviour of the operations (interleavings at whole-operation
granularity); the C++11 acquire/release memory-ordering annotations have no
counterpart in this embedding.

The C++ template argument `max_size` is the total number of backing slots;
the specification's "capacity" (number of usable slots) is `max_size - 1`,
because one slot is kept free to distinguish a full ring from an empty one.
-/

namespace BoostSpscQueue

/-- The mutable state of a `ringbuffer_base<T, max_size>` object.  The
`buffer` list has one entry per raw slot; `dtor_calls` is a ghost counter
of payload-destructor invocations (it models the shared counter the spec
suggests for lifetime testing, not a C++ field). -/
structure Rb (T : Type) where
  write_index : Nat
  read_index : Nat
  pending_pop_read_index : Nat
  buffer : List (Option T)
  dtor_calls : Nat
deriving DecidableEq

/-- `ringbuffer_base::ringbuffer_base()`: both atomic cursors and the
pending cursor start at 0 and the backing storage is `max_size` raw
(unconstructed) slots; no constructor of `T` runs. -/
def ringbuffer_init (T : Type) (max_size : Nat) : Rb T :=
  { write_index := 0
    read_index := 0
    pending_pop_read_index := 0
    buffer := List.replicate max_size none
    dtor_calls := 0 }

/-- `ringbuffer_base::next_index(arg)`: `ret = arg + 1; ret %= max_size`. -/
def next_index (max_size arg : Nat) : Nat :=
  (arg + 1) % max_size

/-- `ringbuffer_base::push(t)`: read the write cursor, advance it; if the
advanced value hits the read cursor the ring is full and nothing happens;
otherwise copy-construct `t` into the slot at the old write cursor and
publish the advanced cursor. -/
def push {T : Type} (max_size : Nat) (q : Rb T) (t : T) : Bool × Rb T :=
  let write_index := q.write_index
  let next := next_index max_size write_index
  if next = q.read_index then
    (false, q)
  else
    (true, { q with
              buffer := q.buffer.set write_index (some t)
              write_index := next })

/-- `ringbuffer_base::pop(T &ret)`: if the cursors coincide the ring is
empty and `ret` is untouched; otherwise `ret = buffer[read_index]` (the
value copied out is returned as the middle component), the slot's payload
is destroyed in place, and the advanced read cursor is published. -/
def pop {T : Type} (max_size : Nat) (q : Rb T) (ret : Option T) :
    Bool × Option T × Rb T :=
  if q.write_index = q.read_index then
    (false, ret, q)
  else
    (true, q.buffer.getD q.read_index none,
      { q with
          buffer := q.buffer.set q.read_index none
          read_index := next_index max_size q.read_index
          dtor_calls := q.dtor_calls + 1 })

/-- `ringbuffer_base::consume_one(f)`: like `pop` but the slot is handed to
the callback `f` instead of being copied into an out-argument.  The middle
component records the callback's result (`none` when the ring was empty and
`f` was never invoked). -/
def consume_one {T α : Type} (max_size : Nat) (f : Option T → α) (q : Rb T) :
    Bool × Option α × Rb T :=
  if q.write_index = q.read_index then
    (false, none, q)
  else
    (true, some (f (q.buffer.getD q.read_index none)),
      { q with
          buffer := q.buffer.set q.read_index none
          read_index := next_index max_size q.read_index
          dtor_calls := q.dtor_calls + 1 })

/-- `ringbuffer_base::front()`: snapshot the read cursor into the pending
cursor and return (the contents of) the slot it designates, without any
emptiness check, destruction, or cursor advancement. -/
def front {T : Type} (q : Rb T) : Option T × Rb T :=
  let q' := { q with pending_pop_read_index := q.read_index }
  (q'.buffer.getD q'.pending_pop_read_index none, q')

/-- The zero-argument `ringbuffer_base::pop()` (the release half of the
peek/release protocol): unconditionally destroy the payload at the pending
cursor and publish the advanced pending cursor as the new read cursor. -/
def release {T : Type} (max_size : Nat) (q : Rb T) : Rb T :=
  { q with
      buffer := q.buffer.set q.pending_pop_read_index none
      read_index := next_index max_size q.pending_pop_read_index
      dtor_calls := q.dtor_calls + 1 }

/-- `ringbuffer_base::reset()`: store 0 into both atomic cursors. -/
def reset {T : Type} (q : Rb T) : Rb T :=
  { q with write_index := 0, read_index := 0 }

/-- The public `ringbuffer_base::empty()`: compare the two cursors. -/
def emptyq {T : Type} (q : Rb T) : Bool :=
  q.write_index == q.read_index

/-- `ringbuffer_base::size()`: forward cyclic distance from the read cursor
to the write cursor. -/
def size {T : Type} (max_size : Nat) (q : Rb T) : Nat :=
  if q.read_index > q.write_index then
    (q.write_index + max_size) - q.read_index
  else
    q.write_index - q.read_index

/-- One fuel-bounded step chain for the destructor's `while (pop(out)) {}`
loop: iterate `pop` into the scratch variable until it fails (or the fuel
runs out; with fuel at least the occupancy the fuel never runs out first,
see `drainFuel_spec`). -/
def drainFuel {T : Type} (max_size : Nat) :
    Nat → Rb T → Option T → Rb T × Option T
  | 0, q, out => (q, out)
  | fuel + 1, q, out =>
    match pop max_size q out with
    | (true, out', q') => drainFuel max_size fuel q' out'
    | (false, _, _) => (q, out)

/-- `ringbuffer_base::~ringbuffer_base()`: declares a default-constructed
scratch `T out;` (hence the `Inhabited` requirement: the C++ line requires
`T` to be default-constructible) and runs `while (pop(out)) {}` to destroy
all remaining items.  Returns the final state and the final scratch value. -/
def ringbuffer_dtor {T : Type} [Inhabited T] (max_size : Nat) (q : Rb T) :
    Rb T × Option T :=
  drainFuel max_size max_size q (some default)

/-- One operation of the single-producer/single-consumer client: a `push`
of a value, a `pop` into a scratch out-argument, or a `consume_one` with
the identity callback. -/
inductive Op (T : Type) where
  | push (t : T) : Op T
  | pop : Op T
  | consume : Op T
deriving DecidableEq

/-- Run a list of operations in order, starting from `q`.  Returns the
final state, the values of the successful `push` calls in call order, and
the values returned by the successful `pop`/`consume_one` calls in call
order. -/
def exec {T : Type} (max_size : Nat) :
    List (Op T) → Rb T → Rb T × List T × List T
  | [], q => (q, [], [])
  | Op.push t :: ops, q =>
    let r := push max_size q t
    let rest := exec max_size ops r.2
    (rest.1, if r.1 then t :: rest.2.1 else rest.2.1, rest.2.2)
  | Op.pop :: ops, q =>
    let r := pop max_size q none
    let rest := exec max_size ops r.2.2
    (rest.1, rest.2.1, if r.1 then r.2.1.toList ++ rest.2.2 else rest.2.2)
  | Op.consume :: ops, q =>
    let r := consume_one max_size (fun x => x) q
    let rest := exec max_size ops r.2.2
    (rest.1, rest.2.1,
      if r.1 then (r.2.1.getD none).toList ++ rest.2.2 else rest.2.2)

/-- Refinement relation: the ring-buffer state `q` represents the abstract
queue contents `l` (oldest element first).  The occupied slots are exactly
the cyclic range of length `l.length` starting at the read cursor, holding
the elements of `l` in order; all other slots are raw memory.  The length
bound `l.length + 1 ≤ max_size` is the reserved-slot invariant: the ring
never holds more than `max_size - 1` elements. -/
def Models {T : Type} (max_size : Nat) (q : Rb T) (l : List T) : Prop :=
  q.read_index < max_size ∧
  q.write_index = (q.read_index + l.length) % max_size ∧
  l.length + 1 ≤ max_size ∧
  q.buffer.length = max_size ∧
  (∀ k, k < max_size →
    q.buffer.getD ((q.read_index + k) % max_size) none =
      (if k < l.length then l.get? k else none))

instance {T : Type} [DecidableEq T] (max_size : Nat) (q : Rb T)
    (l : List T) : Decidable (Models max_size q l) := by
  unfold Models
  infer_instance

/-- Sample state: a 4-slot (capacity-3) ring holding the single value 1. -/
def sample1 : Rb Nat :=
  (exec 4 [Op.push 1] (ringbuffer_init Nat 4)).1

/-- Sample state: a 4-slot (capacity-3) ring holding 1 then 2. -/
def sample12 : Rb Nat :=
  (exec 4 [Op.push 1, Op.push 2] (ringbuffer_init Nat 4)).1

/-! ### Helper lemmas: modular index arithmetic and slot access -/

lemma getD_set_self {T : Type} (l : List (Option T)) (i : Nat)
    (h : i < l.length) (v : Option T) : (l.set i v).getD i none = v := by
  simp [List.getD, List.getElem?_set_self, h]

lemma getD_set_other {T : Type} (l : List (Option T)) (i j : Nat)
    (h : i ≠ j) (v : Option T) : (l.set i v).getD j none = l.getD j none := by
  simp [List.getD, List.getElem?_set_ne h]

/-- Offsets below `max_size` from a common base are injective modulo
`max_size`: two distinct occupied-range offsets never alias a slot. -/
lemma offset_inj {M r j k : Nat} (hj : j < M) (hk : k < M)
    (h : (r + j) % M = (r + k) % M) : j = k := by
  have h' : j % M = k % M := Nat.ModEq.add_left_cancel' r h
  rwa [Nat.mod_eq_of_lt hj, Nat.mod_eq_of_lt hk] at h'

/-- An offset of at most `max_size` lands back on the base slot exactly when
it is `0` or `max_size`: the full/empty cursor-coincidence criterion. -/
lemma offset_eq_self {M r n : Nat} (hr : r < M) (hn : n ≤ M) :
    (r + n) % M = r ↔ n = 0 ∨ n = M := by
  constructor
  · intro h
    have h0 : (r + n) % M = (r + 0) % M := by
      simpa [Nat.mod_eq_of_lt hr] using h
    have h' : n % M = 0 % M := Nat.ModEq.add_left_cancel' r h0
    have hd : M ∣ n := (Nat.modEq_zero_iff_dvd).mp h'
    rcases Nat.lt_or_ge n M with h1 | h1
    · exact Or.inl (Nat.eq_zero_of_dvd_of_lt hd h1)
    · exact Or.inr (Nat.le_antisymm hn h1)
  · rintro (rfl | rfl)
    · simp [Nat.mod_eq_of_lt hr]
    · simp [Nat.add_mod_right, Nat.mod_eq_of_lt hr]

/-- Evaluate one reduction of `%` when the argument is below `2 * M`. -/
lemma mod_two_cases {M a : Nat} (h : a < 2 * M) :
    a % M = if a < M then a else a - M := by
  split
  · exact Nat.mod_eq_of_lt (by assumption)
  · rw [Nat.mod_eq_sub_mod (by omega)]
    exact Nat.mod_eq_of_lt (by omega)

/-- Every slot index below `max_size` is reached by some occupied-range
offset from the read cursor. -/
lemma slot_index_surj {M r : Nat} (hr : r < M) (i : Nat) (hi : i < M) :
    ∃ k, k < M ∧ (r + k) % M = i := by
  refine ⟨(M + i - r) % M, Nat.mod_lt _ (by omega), ?_⟩
  rw [Nat.add_mod_mod]
  have hri : r + (M + i - r) = M + i := by omega
  rw [hri, Nat.add_mod_left, Nat.mod_eq_of_lt hi]

/-! ### Step lemmas: how each operation transforms the abstract contents -/

/-- A freshly constructed ring models the empty queue. -/
lemma models_init (T : Type) {M : Nat} (hM : 1 ≤ M) :
    Models M (ringbuffer_init T M) [] := by
  refine ⟨hM, by simp [ringbuffer_init], by simpa using hM,
    by simp [ringbuffer_init], ?_⟩
  intro k hk
  simp [ringbuffer_init, List.getD]

/-- Cursor coincidence is exactly emptiness of the abstract queue. -/
lemma models_empty_iff {T : Type} {M : Nat} {q : Rb T} {l : List T}
    (h : Models M q l) : q.write_index = q.read_index ↔ l = [] := by
  obtain ⟨hr, hw, hn, -, -⟩ := h
  rw [hw]
  constructor
  · intro he
    rcases (offset_eq_self hr (by omega)).mp he with h0 | hM
    · exact List.length_eq_zero.mp h0
    · omega
  · rintro rfl
    simp [Nat.mod_eq_of_lt hr]

/-- The slot under the read cursor holds the oldest element. -/
lemma models_head_slot {T : Type} {M : Nat} {q : Rb T} {v : T} {lt : List T}
    (h : Models M q (v :: lt)) : q.buffer.getD q.read_index none = some v := by
  obtain ⟨hr, -, hn, -, hslot⟩ := h
  have h0 := hslot 0 (by omega)
  simpa [Nat.mod_eq_of_lt hr] using h0

/-- `push` on a full ring leaves the state untouched and reports failure. -/
lemma push_full {T : Type} {M : Nat} {q : Rb T} {l : List T}
    (h : Models M q l) (t : T) (hfull : l.length + 1 = M) :
    push M q t = (false, q) := by
  obtain ⟨hr, hw, hn, -, -⟩ := h
  have hg : next_index M q.write_index = q.read_index := by
    simp only [next_index, hw]
    rw [Nat.mod_add_mod, Nat.add_assoc]
    exact (offset_eq_self hr (by omega)).mpr (Or.inr hfull)
  simp [push, hg]

/-- `push` on a non-full ring succeeds and appends the value at the tail of
the abstract queue; the consumer-side state is untouched. -/
lemma push_ok {T : Type} {M : Nat} {q : Rb T} {l : List T}
    (h : Models M q l) (t : T) (hroom : l.length + 1 < M) :
    (push M q t).1 = true ∧
    Models M (push M q t).2 (l ++ [t]) ∧
    (push M q t).2.read_index = q.read_index ∧
    (push M q t).2.pending_pop_read_index = q.pending_pop_read_index ∧
    (push M q t).2.dtor_calls = q.dtor_calls := by
  obtain ⟨hr, hw, hn, hlen, hslot⟩ := h
  have hwlt : q.write_index < M := by
    rw [hw]; exact Nat.mod_lt _ (by omega)
  have hg : ¬ next_index M q.write_index = q.read_index := by
    simp only [next_index, hw]
    rw [Nat.mod_add_mod, Nat.add_assoc]
    intro hc
    rcases (offset_eq_self hr (by omega)).mp hc with h0 | hM' <;> omega
  have hpush : push M q t =
      (true, { q with
                buffer := q.buffer.set q.write_index (some t)
                write_index := next_index M q.write_index }) := by
    simp [push, hg]
  rw [hpush]
  refine ⟨rfl, ?_, rfl, rfl, rfl⟩
  refine ⟨hr, ?_, by simp; omega, by simpa using hlen, ?_⟩
  · simp only [next_index, hw, List.length_append, List.length_cons,
      List.length_nil]
    rw [Nat.mod_add_mod, Nat.add_assoc]
  · intro k hk
    simp only [List.length_append, List.length_cons, List.length_nil]
    by_cases hkn : k = l.length
    · subst hkn
      have hidx : (q.read_index + l.length) % M = q.write_index := hw.symm
      rw [hidx, getD_set_self _ _ (by rw [hlen]; exact hwlt)]
      rw [if_pos (by omega)]
      exact (List.get?_concat_length l t).symm
    · have hne : q.write_index ≠ (q.read_index + k) % M := by
        rw [hw]
        intro hc
        exact hkn (offset_inj (by omega) hk hc).symm
      rw [getD_set_other _ _ _ hne, hslot k hk]
      by_cases hkl : k < l.length
      · rw [if_pos hkl, if_pos (by omega)]
        exact (List.get?_append hkl).symm
      · rw [if_neg hkl, if_neg (by omega)]

/-- `pop` (and `consume_one`) with coinciding cursors is a no-op that
reports failure and leaves the out-argument untouched. -/
lemma pop_fail {T : Type} {M : Nat} {q : Rb T}
    (hne : q.write_index = q.read_index) (out : Option T) :
    pop M q out = (false, out, q) := by
  simp [pop, hne]

/-- Destroying the head slot and advancing the read cursor drops the oldest
element: the shared state change of `pop` and `consume_one`. -/
lemma read_advance_models {T : Type} {M : Nat} {q : Rb T} {v : T}
    {lt : List T} (h : Models M q (v :: lt)) (d : Nat) :
    Models M { q with
                buffer := q.buffer.set q.read_index none
                read_index := next_index M q.read_index
                dtor_calls := d } lt := by
  obtain ⟨hr, hw, hn, hlen, hslot⟩ := h
  have hM : 0 < M := by omega
  have hlen' : lt.length + 2 ≤ M := by simpa using hn
  refine ⟨?_, ?_, by omega, by simpa using hlen, ?_⟩
  · simp only [next_index]
    exact Nat.mod_lt _ hM
  · simp only [next_index, hw]
    rw [Nat.mod_add_mod]
    have hac : q.read_index + 1 + lt.length = q.read_index + (v :: lt).length := by
      simp; omega
    rw [hac]
  · intro k hk
    simp only [next_index]
    rw [Nat.mod_add_mod]
    have hac : q.read_index + 1 + k = q.read_index + (k + 1) := by omega
    rw [hac]
    by_cases hkM : k + 1 = M
    · have hidx : (q.read_index + (k + 1)) % M = q.read_index := by
        rw [hkM, Nat.add_mod_right]
        exact Nat.mod_eq_of_lt hr
      rw [hidx, getD_set_self _ _ (by rw [hlen]; exact hr)]
      rw [if_neg (by omega)]
    · have hne : q.read_index ≠ (q.read_index + (k + 1)) % M := by
        intro hc
        have hc' : (q.read_index + 0) % M = (q.read_index + (k + 1)) % M := by
          simpa [Nat.mod_eq_of_lt hr] using hc
        have := offset_inj (by omega) (by omega) hc'
        omega
      rw [getD_set_other _ _ _ hne, hslot (k + 1) (by omega)]
      by_cases hkl : k < lt.length
      · rw [if_pos (by simp; omega), if_pos hkl]
        simp
      · rw [if_neg (by simp; omega), if_neg hkl]

/-- `pop` on a non-empty ring returns the oldest element, destroys its
slot, and advances the read cursor. -/
lemma pop_ok {T : Type} {M : Nat} {q : Rb T} {v : T} {lt : List T}
    (h : Models M q (v :: lt)) (out : Option T) :
    pop M q out =
      (true, some v,
        { q with
            buffer := q.buffer.set q.read_index none
            read_index := next_index M q.read_index
            dtor_calls := q.dtor_calls + 1 }) := by
  have hne : ¬ q.write_index = q.read_index := by
    intro hc
    exact absurd ((models_empty_iff h).mp hc) (List.cons_ne_nil v lt)
  have hhead := models_head_slot h
  simp only [List.getD, List.get?_eq_getElem?] at hhead
  simp [pop, hne, hhead]

/-- `consume_one` on a non-empty ring hands the oldest element's slot to
the callback, destroys the slot, and advances the read cursor. -/
lemma consume_ok {T α : Type} {M : Nat} {q : Rb T} {v : T} {lt : List T}
    (h : Models M q (v :: lt)) (f : Option T → α) :
    consume_one M f q =
      (true, some (f (some v)),
        { q with
            buffer := q.buffer.set q.read_index none
            read_index := next_index M q.read_index
            dtor_calls := q.dtor_calls + 1 }) := by
  have hne : ¬ q.write_index = q.read_index := by
    intro hc
    exact absurd ((models_empty_iff h).mp hc) (List.cons_ne_nil v lt)
  have hhead := models_head_slot h
  simp only [List.getD, List.get?_eq_getElem?] at hhead
  simp [consume_one, hne, hhead]

/-- In a ring modelling the empty queue the two cursors coincide. -/
lemma models_nil_cursors {T : Type} {M : Nat} {q : Rb T}
    (h : Models M q []) : q.write_index = q.read_index :=
  (models_empty_iff h).mpr rfl

/-- In a ring modelling the empty queue every slot is raw memory: no
constructed payload remains anywhere in the backing storage. -/
lemma models_nil_all_none {T : Type} {M : Nat} {q : Rb T}
    (h : Models M q []) : ∀ i, i < M → q.buffer.getD i none = none := by
  obtain ⟨hr, -, -, -, hslot⟩ := h
  intro i hi
  obtain ⟨k, hk, hik⟩ := slot_index_surj hr i hi
  have hs := hslot k hk
  rw [hik] at hs
  simpa using hs

/-- `size` reports the number of occupied slots of a modelled state. -/
lemma size_models {T : Type} {M : Nat} {q : Rb T} {l : List T}
    (h : Models M q l) : size M q = l.length := by
  obtain ⟨hr, hw, hn, -, -⟩ := h
  have hw' : q.write_index =
      if q.read_index + l.length < M then q.read_index + l.length
      else q.read_index + l.length - M := by
    rw [hw, mod_two_cases (by omega)]
  simp only [size, hw']
  split_ifs <;> omega

/-- Any operation sequence transforms a modelled state into a modelled
state, and the popped values followed by the remaining contents equal the
initial contents followed by the successfully pushed values: first in,
first out, nothing lost, nothing duplicated. -/
lemma exec_spec {T : Type} {M : Nat} :
    ∀ (ops : List (Op T)) (q : Rb T) (l : List T), Models M q l →
      ∃ l', Models M (exec M ops q).1 l' ∧
        (exec M ops q).2.2 ++ l' = l ++ (exec M ops q).2.1 := by
  intro ops
  induction ops with
  | nil =>
    intro q l h
    exact ⟨l, h, by simp [exec]⟩
  | cons op ops ih =>
    intro q l h
    cases op with
    | push t =>
      rcases Nat.lt_or_ge (l.length + 1) M with hroom | hfull'
      · obtain ⟨hok, h', -, -, -⟩ := push_ok h t hroom
        obtain ⟨l', hm, heq⟩ := ih (push M q t).2 (l ++ [t]) h'
        refine ⟨l', ?_, ?_⟩
        · simpa [exec] using hm
        · simp only [exec, hok, if_true]
          simpa [List.append_assoc] using heq
      · have hfull : l.length + 1 = M := by
          have := h.2.2.1
          omega
        obtain ⟨l', hm, heq⟩ := ih q l h
        refine ⟨l', ?_, ?_⟩
        · simpa [exec, push_full h t hfull] using hm
        · simpa [exec, push_full h t hfull] using heq
    | pop =>
      cases l with
      | nil =>
        have hne : q.write_index = q.read_index := models_nil_cursors h
        obtain ⟨l', hm, heq⟩ := ih q [] h
        refine ⟨l', ?_, ?_⟩
        · simpa [exec, pop_fail hne] using hm
        · simpa [exec, pop_fail hne] using heq
      | cons v lt =>
        have hp := pop_ok h none
        have h' := read_advance_models h (q.dtor_calls + 1)
        obtain ⟨l', hm, heq⟩ := ih (pop M q none).2.2 lt (by rw [hp]; exact h')
        refine ⟨l', ?_, ?_⟩
        · simpa [exec] using hm
        · simpa [exec, hp] using heq
    | consume =>
      cases l with
      | nil =>
        have hne : q.write_index = q.read_index := models_nil_cursors h
        obtain ⟨l', hm, heq⟩ := ih q [] h
        refine ⟨l', ?_, ?_⟩
        · simpa [exec, consume_one, hne] using hm
        · simpa [exec, consume_one, hne] using heq
      | cons v lt =>
        have hp := consume_ok h (fun x => x)
        have h' := read_advance_models h (q.dtor_calls + 1)
        obtain ⟨l', hm, heq⟩ :=
          ih (consume_one M (fun x => x) q).2.2 lt (by rw [hp]; exact h')
        refine ⟨l', ?_, ?_⟩
        · simpa [exec] using hm
        · simpa [exec, hp] using heq

/-- A run made only of `push` operations succeeds exactly on the values
that fit into the remaining room (`max_size - 1` usable slots) and appends
them to the contents, in order. -/
lemma pushes_spec {T : Type} {M : Nat} :
    ∀ (vs : List T) (q : Rb T) (l : List T), Models M q l →
      (exec M (vs.map Op.push) q).2.1 = vs.take (M - 1 - l.length) ∧
      Models M (exec M (vs.map Op.push) q).1
        (l ++ vs.take (M - 1 - l.length)) := by
  intro vs
  induction vs with
  | nil =>
    intro q l h
    simpa [exec] using h
  | cons v tl ih =>
    intro q l h
    rcases Nat.lt_or_ge (l.length + 1) M with hroom | hfull'
    · obtain ⟨hok, h', -, -, -⟩ := push_ok h v hroom
      obtain ⟨ih1, ih2⟩ := ih (push M q v).2 (l ++ [v]) h'
      have harith : M - 1 - l.length = (M - 1 - (l ++ [v]).length) + 1 := by
        simp
        omega
      constructor
      · simp only [List.map, exec, hok, if_true, harith, List.take_succ_cons]
        rw [ih1]
      · rw [harith]
        simp only [List.take_succ_cons]
        have : l ++ v :: tl.take (M - 1 - (l ++ [v]).length) =
            (l ++ [v]) ++ tl.take (M - 1 - (l ++ [v]).length) := by
          simp
        rw [this]
        simpa [exec] using ih2
    · have hfull : l.length + 1 = M := by
        have := h.2.2.1
        omega
      have h0 : M - 1 - l.length = 0 := by omega
      obtain ⟨ih1, ih2⟩ := ih q l h
      rw [h0] at ih1 ih2 ⊢
      constructor
      · simpa [exec, push_full h v hfull, h0] using ih1
      · simpa [exec, push_full h v hfull, h0] using ih2

/-- The destructor's drain loop, run with enough fuel, empties the ring,
invokes the payload destructor exactly once per occupied slot, and exits
immediately (state and scratch untouched) when the ring is already empty. -/
lemma drainFuel_spec {T : Type} {M : Nat} :
    ∀ (fuel : Nat) (l : List T) (q : Rb T) (out : Option T),
      Models M q l → l.length ≤ fuel →
      Models M (drainFuel M fuel q out).1 [] ∧
      (drainFuel M fuel q out).1.dtor_calls = q.dtor_calls + l.length ∧
      (l = [] → drainFuel M fuel q out = (q, out)) := by
  intro fuel
  induction fuel with
  | zero =>
    intro l q out h hle
    have hnil : l = [] := by
      cases l with
      | nil => rfl
      | cons v lt => simp at hle
    subst hnil
    exact ⟨h, by simp [drainFuel], fun _ => rfl⟩
  | succ fuel ih =>
    intro l q out h hle
    cases l with
    | nil =>
      have hne : q.write_index = q.read_index := models_nil_cursors h
      have hstop : drainFuel M (fuel + 1) q out = (q, out) := by
        simp [drainFuel, pop_fail hne]
      rw [hstop]
      exact ⟨h, by simp, fun _ => rfl⟩
    | cons v lt =>
      have hp := pop_ok h out
      have h' := read_advance_models h (q.dtor_calls + 1)
      have hstep : drainFuel M (fuel + 1) q out =
          drainFuel M fuel (pop M q out).2.2 (some v) := by
        simp only [drainFuel, hp]
      obtain ⟨m1, m2, -⟩ :=
        ih lt (pop M q out).2.2 (some v) (by rw [hp]; exact h')
          (by simpa using Nat.le_of_succ_le_succ (by simpa using hle))
      rw [hstep]
      refine ⟨m1, ?_, by simp⟩
      rw [m2, hp]
      simp
      omega

/-! ### Claim theorems -/

/-- Claim C3: for every index in `[0, capacity]` the cursor-advance
operation returns `(index + 1) mod (capacity + 1)`, where `capacity` is the
number of usable slots (`max_size = capacity + 1` backing slots); in
particular advancing the index `capacity` yields `0`, and this holds for
every capacity, not only powers of two. -/
theorem C3_advance_mod (capacity idx : Nat) (h : idx ≤ capacity) :
    next_index (capacity + 1) idx = (idx + 1) % (capacity + 1) ∧
    next_index (capacity + 1) capacity = 0 ∧
    (idx < capacity → next_index (capacity + 1) idx = idx + 1) := by
  refine ⟨rfl, ?_, ?_⟩
  · show (capacity + 1) % (capacity + 1) = 0
    exact Nat.mod_self _
  · intro hlt
    show (idx + 1) % (capacity + 1) = idx + 1
    exact Nat.mod_eq_of_lt (by omega)

/-- Witness for C3: a capacity-7 ring, advancing index 3 and index 7. -/
theorem C3_advance_mod_witness :
    (3 ≤ 7) ∧
    (next_index (7 + 1) 3 = (3 + 1) % (7 + 1) ∧
      next_index (7 + 1) 7 = 0 ∧
      (3 < 7 → next_index (7 + 1) 3 = 3 + 1)) :=
  ⟨by decide, C3_advance_mod 7 3 (by decide)⟩

/-- Claim C8: `reset()` stores 0 into both the write cursor and the read
cursor and changes nothing else: no payload destructor runs, the buffer
contents are untouched, and the pending (peek) cursor is left unchanged. -/
theorem C8_reset_frame {T : Type} (q : Rb T) :
    (reset q).write_index = 0 ∧
    (reset q).read_index = 0 ∧
    (reset q).buffer = q.buffer ∧
    (reset q).pending_pop_read_index = q.pending_pop_read_index ∧
    (reset q).dtor_calls = q.dtor_calls :=
  ⟨rfl, rfl, rfl, rfl, rfl⟩

/-- Claim C4: full and empty are the only failure conditions and both are
no-ops: `push` returns false iff the advanced write cursor equals the read
cursor, and then mutates nothing; `pop` and `consume_one` return false iff
the two cursors coincide, and then mutate no state and leave the output
argument untouched (for `consume_one`, the callback never runs); the
operations are total functions with no other error signal. -/
theorem C4_failure_conditions {T α : Type} (M : Nat) (q : Rb T) (t : T)
    (out : Option T) (f : Option T → α) :
    ((push M q t).1 = false ↔ next_index M q.write_index = q.read_index) ∧
    (next_index M q.write_index = q.read_index → push M q t = (false, q)) ∧
    ((pop M q out).1 = false ↔ q.write_index = q.read_index) ∧
    (q.write_index = q.read_index → pop M q out = (false, out, q)) ∧
    ((consume_one M f q).1 = false ↔ q.write_index = q.read_index) ∧
    (q.write_index = q.read_index → consume_one M f q = (false, none, q)) := by
  refine ⟨?_, ?_, ?_, ?_, ?_, ?_⟩
  · by_cases hg : next_index M q.write_index = q.read_index <;> simp [push, hg]
  · intro hg
    simp [push, hg]
  · by_cases hg : q.write_index = q.read_index <;> simp [pop, hg]
  · intro hg
    simp [pop, hg]
  · by_cases hg : q.write_index = q.read_index <;> simp [consume_one, hg]
  · intro hg
    simp [consume_one, hg]

/-- Witness for C4: instantiated on a 1-slot ring (capacity 0), which is
simultaneously full and empty, so both failure branches are exercised. -/
theorem C4_failure_conditions_witness :
    ((push 1 (ringbuffer_init Nat 1) 0).1 = false ↔
      next_index 1 (ringbuffer_init Nat 1).write_index =
        (ringbuffer_init Nat 1).read_index) ∧
    (next_index 1 (ringbuffer_init Nat 1).write_index =
        (ringbuffer_init Nat 1).read_index →
      push 1 (ringbuffer_init Nat 1) 0 = (false, ringbuffer_init Nat 1)) ∧
    ((pop 1 (ringbuffer_init Nat 1) none).1 = false ↔
      (ringbuffer_init Nat 1).write_index =
        (ringbuffer_init Nat 1).read_index) ∧
    ((ringbuffer_init Nat 1).write_index =
        (ringbuffer_init Nat 1).read_index →
      pop 1 (ringbuffer_init Nat 1) none =
        (false, none, ringbuffer_init Nat 1)) ∧
    ((consume_one 1 (fun x => x) (ringbuffer_init Nat 1)).1 = false ↔
      (ringbuffer_init Nat 1).write_index =
        (ringbuffer_init Nat 1).read_index) ∧
    ((ringbuffer_init Nat 1).write_index =
        (ringbuffer_init Nat 1).read_index →
      consume_one 1 (fun x => x) (ringbuffer_init Nat 1) =
        (false, none, ringbuffer_init Nat 1)) :=
  C4_failure_conditions 1 (ringbuffer_init Nat 1) 0 none (fun x => x)

/-- Claim C6: for every occupied (non-empty) queue state, `front()`
followed by the zero-argument `pop()` (release) yields exactly the same
resulting cursor state (read and write cursors), the same buffer, and the
same single destructor invocation as one `pop(out)` call. -/
theorem C6_front_release_eq_pop {T : Type} (M : Nat) (q : Rb T)
    (out : Option T) (h : q.write_index ≠ q.read_index) :
    (pop M q out).1 = true ∧
    (release M (front q).2).read_index = (pop M q out).2.2.read_index ∧
    (release M (front q).2).write_index = (pop M q out).2.2.write_index ∧
    (release M (front q).2).buffer = (pop M q out).2.2.buffer ∧
    (release M (front q).2).dtor_calls = (pop M q out).2.2.dtor_calls ∧
    (release M (front q).2).dtor_calls = q.dtor_calls + 1 := by
  simp [front, release, pop, h]

/-- Witness for C6: the occupied sample state holding the value 1. -/
theorem C6_front_release_eq_pop_witness :
    (sample1.write_index ≠ sample1.read_index) ∧
    ((pop 4 sample1 none).1 = true ∧
      (release 4 (front sample1).2).read_index =
        (pop 4 sample1 none).2.2.read_index ∧
      (release 4 (front sample1).2).write_index =
        (pop 4 sample1 none).2.2.write_index ∧
      (release 4 (front sample1).2).buffer =
        (pop 4 sample1 none).2.2.buffer ∧
      (release 4 (front sample1).2).dtor_calls =
        (pop 4 sample1 none).2.2.dtor_calls ∧
      (release 4 (front sample1).2).dtor_calls =
        sample1.dtor_calls + 1) :=
  ⟨by decide, C6_front_release_eq_pop 4 sample1 none (by decide)⟩

/-- Claim C7: `size()` returns the forward cyclic distance from the read
cursor to the write cursor — `write - read` when that difference is
non-negative and `write - read + max_size` when the ring has wrapped
(`read > write`) — and this equals the number of occupied slots. -/
theorem C7_size_cyclic_distance {T : Type} (M : Nat) (q : Rb T)
    (l : List T) (h : Models M q l) :
    size M q = l.length ∧
    size M q = (if q.read_index > q.write_index
      then q.write_index + M - q.read_index
      else q.write_index - q.read_index) :=
  ⟨size_models h, rfl⟩

/-- Witness for C7: the sample state holding two elements. -/
theorem C7_size_cyclic_distance_witness :
    Models 4 sample12 [1, 2] ∧
    (size 4 sample12 = ([1, 2] : List Nat).length ∧
      size 4 sample12 = (if sample12.read_index > sample12.write_index
        then sample12.write_index + 4 - sample12.read_index
        else sample12.write_index - sample12.read_index)) :=
  ⟨by decide, C7_size_cyclic_distance 4 sample12 [1, 2] (by decide)⟩

/-- Claim C10: neither `front()` nor the zero-argument `pop()` (release)
checks for emptiness or for a prior matching `front()`: `front` always
snapshots the read cursor into the pending cursor and reads the designated
slot (on an empty fresh queue it hands back an unconstructed slot), and
`release` unconditionally destroys the slot at the pending cursor and
advances the read cursor — on the empty fresh queue the read cursor moves
to 1 while the write cursor stays 0, i.e. past it; no error branch exists
in either operation. -/
theorem C10_unchecked_front_release {T : Type} (M : Nat) (q : Rb T) :
    (front q).2.pending_pop_read_index = q.read_index ∧
    (front q).1 = q.buffer.getD q.read_index none ∧
    (front q).2.write_index = q.write_index ∧
    (front q).2.read_index = q.read_index ∧
    (front q).2.buffer = q.buffer ∧
    (front q).2.dtor_calls = q.dtor_calls ∧
    (release M q).read_index = next_index M q.pending_pop_read_index ∧
    (release M q).buffer = q.buffer.set q.pending_pop_read_index none ∧
    (release M q).dtor_calls = q.dtor_calls + 1 ∧
    (release M q).write_index = q.write_index ∧
    (front (ringbuffer_init Nat 4)).1 = none ∧
    (release 4 (front (ringbuffer_init Nat 4)).2).read_index = 1 ∧
    (release 4 (front (ringbuffer_init Nat 4)).2).write_index = 0 ∧
    (release 4 (front (ringbuffer_init Nat 4)).2).dtor_calls = 1 :=
  ⟨rfl, rfl, rfl, rfl, rfl, rfl, rfl, rfl, rfl, rfl,
    by decide, by decide, by decide, by decide⟩

/-- Claim C1: for every sequence of operations by one producer and one
consumer (run at whole-operation granularity), the values returned by the
successful `pop`/`consume_one` calls, followed by what is still queued,
equal the values accepted by the successful `push` calls, in order: FIFO,
nothing lost, duplicated, or reordered.  In particular pushing 1, 2, 3
into a capacity-4 (5-slot) queue and popping three times yields 1, 2, 3. -/
theorem C1_fifo_order {T : Type} (M : Nat) (ops : List (Op T))
    (hM : 1 ≤ M) :
    (∃ l', Models M (exec M ops (ringbuffer_init T M)).1 l' ∧
      (exec M ops (ringbuffer_init T M)).2.2 ++ l' =
        (exec M ops (ringbuffer_init T M)).2.1) ∧
    (exec 5 [Op.push 1, Op.push 2, Op.push 3, Op.pop, Op.pop, Op.pop]
      (ringbuffer_init Nat 5)).2.1 = [1, 2, 3] ∧
    (exec 5 [Op.push 1, Op.push 2, Op.push 3, Op.pop, Op.pop, Op.pop]
      (ringbuffer_init Nat 5)).2.2 = [1, 2, 3] := by
  refine ⟨?_, by decide, by decide⟩
  obtain ⟨l', hm, heq⟩ :=
    exec_spec ops (ringbuffer_init T M) [] (models_init T hM)
  exact ⟨l', hm, by simpa using heq⟩

/-- Witness for C1: a 5-slot (capacity-4) ring with three pushes and three
pops, also exercising `consume_one`. -/
theorem C1_fifo_order_witness :
    (1 ≤ 5) ∧
    ((∃ l', Models 5
        (exec 5 [Op.push 7, Op.push 8, Op.consume, Op.pop]
          (ringbuffer_init Nat 5)).1 l' ∧
      (exec 5 [Op.push 7, Op.push 8, Op.consume, Op.pop]
          (ringbuffer_init Nat 5)).2.2 ++ l' =
        (exec 5 [Op.push 7, Op.push 8, Op.consume, Op.pop]
          (ringbuffer_init Nat 5)).2.1) ∧
    (exec 5 [Op.push 1, Op.push 2, Op.push 3, Op.pop, Op.pop, Op.pop]
      (ringbuffer_init Nat 5)).2.1 = [1, 2, 3] ∧
    (exec 5 [Op.push 1, Op.push 2, Op.push 3, Op.pop, Op.pop, Op.pop]
      (ringbuffer_init Nat 5)).2.2 = [1, 2, 3]) :=
  ⟨by decide,
    C1_fifo_order 5 [Op.push 7, Op.push 8, Op.consume, Op.pop] (by decide)⟩

/-- Claim C2: a queue constructed with capacity `N` (backing storage of
`N + 1` slots), starting from empty, accepts exactly `N` consecutive pushes
and the `(N+1)`-th push returns false leaving the state (hence `size`)
unchanged; concretely on a fresh capacity-3 queue `empty()` is true, after
3 successful pushes a 4th push returns false and leaves `size()` at 3, and
after 3 pops `empty()` is true again and a further pop returns false. -/
theorem C2_capacity_bound {T : Type} (N : Nat) (ws : List T) (x : T)
    (h : ws.length = N) :
    (exec (N + 1) (ws.map Op.push) (ringbuffer_init T (N + 1))).2.1 = ws ∧
    push (N + 1)
        (exec (N + 1) (ws.map Op.push) (ringbuffer_init T (N + 1))).1 x =
      (false,
        (exec (N + 1) (ws.map Op.push) (ringbuffer_init T (N + 1))).1) ∧
    size (N + 1)
        (exec (N + 1) (ws.map Op.push) (ringbuffer_init T (N + 1))).1 = N ∧
    emptyq (ringbuffer_init Nat 4) = true ∧
    (exec 4 [Op.push 1, Op.push 2, Op.push 3]
      (ringbuffer_init Nat 4)).2.1 = [1, 2, 3] ∧
    push 4 (exec 4 [Op.push 1, Op.push 2, Op.push 3]
        (ringbuffer_init Nat 4)).1 9 =
      (false,
        (exec 4 [Op.push 1, Op.push 2, Op.push 3]
          (ringbuffer_init Nat 4)).1) ∧
    size 4 (exec 4 [Op.push 1, Op.push 2, Op.push 3]
      (ringbuffer_init Nat 4)).1 = 3 ∧
    emptyq (exec 4 [Op.push 1, Op.push 2, Op.push 3, Op.pop, Op.pop, Op.pop]
      (ringbuffer_init Nat 4)).1 = true ∧
    (pop 4 (exec 4 [Op.push 1, Op.push 2, Op.push 3, Op.pop, Op.pop, Op.pop]
      (ringbuffer_init Nat 4)).1 none).1 = false := by
  have hm0 : Models (N + 1) (ringbuffer_init T (N + 1)) [] :=
    models_init T (by omega)
  obtain ⟨h1, h2⟩ := pushes_spec ws (ringbuffer_init T (N + 1)) [] hm0
  have htake : N + 1 - 1 - ([] : List T).length = N := by simp
  rw [htake] at h1 h2
  have hws : ws.take N = ws := by
    rw [← h]
    exact List.take_length ws
  rw [hws] at h1 h2
  have hmfull : Models (N + 1)
      (exec (N + 1) (ws.map Op.push) (ringbuffer_init T (N + 1))).1 ws := by
    simpa using h2
  refine ⟨h1, push_full hmfull x (by omega), ?_,
    by decide, by decide, by decide, by decide, by decide, by decide⟩
  rw [size_models hmfull, h]

/-- Witness for C2: capacity 2 (3 backing slots), pushing 10 then 20 and
failing to push 30. -/
theorem C2_capacity_bound_witness :
    (([10, 20] : List Nat).length = 2) ∧
    ((exec (2 + 1) ([10, 20].map Op.push)
        (ringbuffer_init Nat (2 + 1))).2.1 = [10, 20] ∧
    push (2 + 1)
        (exec (2 + 1) ([10, 20].map Op.push)
          (ringbuffer_init Nat (2 + 1))).1 30 =
      (false,
        (exec (2 + 1) ([10, 20].map Op.push)
          (ringbuffer_init Nat (2 + 1))).1) ∧
    size (2 + 1)
        (exec (2 + 1) ([10, 20].map Op.push)
          (ringbuffer_init Nat (2 + 1))).1 = 2 ∧
    emptyq (ringbuffer_init Nat 4) = true ∧
    (exec 4 [Op.push 1, Op.push 2, Op.push 3]
      (ringbuffer_init Nat 4)).2.1 = [1, 2, 3] ∧
    push 4 (exec 4 [Op.push 1, Op.push 2, Op.push 3]
        (ringbuffer_init Nat 4)).1 9 =
      (false,
        (exec 4 [Op.push 1, Op.push 2, Op.push 3]
          (ringbuffer_init Nat 4)).1) ∧
    size 4 (exec 4 [Op.push 1, Op.push 2, Op.push 3]
      (ringbuffer_init Nat 4)).1 = 3 ∧
    emptyq (exec 4 [Op.push 1, Op.push 2, Op.push 3, Op.pop, Op.pop, Op.pop]
      (ringbuffer_init Nat 4)).1 = true ∧
    (pop 4 (exec 4 [Op.push 1, Op.push 2, Op.push 3, Op.pop, Op.pop, Op.pop]
      (ringbuffer_init Nat 4)).1 none).1 = false) :=
  ⟨by decide, C2_capacity_bound 2 [10, 20] 30 (by decide)⟩

/-- Claim C5 (destruction part): the destructor's drain loop empties the
ring, invoking the payload destructor exactly once for each of the `k`
occupied elements — afterwards the counter has grown by exactly `k`, the
cursors coincide, and every backing slot is raw memory again (none skipped,
none destroyed twice) — and it is a no-op when the queue is already empty.
The capability part of the claim fails on the code: the destructor's very
first statement is `T out;`, a default construction (modelled by the
`Inhabited` instance and the `some default` scratch below), so the final
conjunct exhibits the default-constructed value flowing through the
destructor of an empty queue. -/
theorem C5_destructor_drain {T : Type} [Inhabited T] (M : Nat) (q : Rb T)
    (l : List T) (h : Models M q l) :
    Models M (ringbuffer_dtor M q).1 [] ∧
    (ringbuffer_dtor M q).1.dtor_calls = q.dtor_calls + l.length ∧
    (ringbuffer_dtor M q).1.write_index = (ringbuffer_dtor M q).1.read_index ∧
    (∀ i, i < M → (ringbuffer_dtor M q).1.buffer.getD i none = none) ∧
    (l = [] → ringbuffer_dtor M q = (q, some default)) := by
  have hle : l.length ≤ M := by
    have := h.2.2.1
    omega
  obtain ⟨m1, m2, m3⟩ := drainFuel_spec M l q (some default) h hle
  exact ⟨m1, m2, models_nil_cursors m1, models_nil_all_none m1, m3⟩

/-- Witness for C5: destroying the two-element sample state invokes the
payload destructor exactly twice and empties every slot. -/
theorem C5_destructor_drain_witness :
    Models 4 sample12 [1, 2] ∧
    (Models 4 (ringbuffer_dtor 4 sample12).1 [] ∧
      (ringbuffer_dtor 4 sample12).1.dtor_calls =
        sample12.dtor_calls + ([1, 2] : List Nat).length ∧
      (ringbuffer_dtor 4 sample12).1.write_index =
        (ringbuffer_dtor 4 sample12).1.read_index ∧
      (∀ i, i < 4 → (ringbuffer_dtor 4 sample12).1.buffer.getD i none = none) ∧
      (([1, 2] : List Nat) = [] →
        ringbuffer_dtor 4 sample12 = (sample12, some default))) :=
  ⟨by decide, C5_destructor_drain 4 sample12 [1, 2] (by decide)⟩

end BoostSpscQueue
